import Mathlib

/-!
Shallow embedding of the metric-collection core of the Cloudflare Prometheus
exporter (TypeScript, Cloudflare Workers Durable Object).

Embedding conventions:
* JS `number` values flowing through the reconciliation engine are embedded as
  `ℚ` (the operations used on them — `+`, `-`, `<`, `/` — are exact there).
* JS `Record<string, T>` objects are embedded as insertion-ordered association
  lists: `recordGet` is property lookup and `recordSet` is property assignment
  (replace in place when the key exists, append otherwise), which is JS object
  key ordering.  JS records never hold duplicate keys, so the first-match
  update below coincides with JS semantics.
* Timestamps (`Date.now()`) are milliseconds as `ℤ`.
-/

namespace CFExporter

/-- JS `Record<string, α>` embedded as an insertion-ordered association list. -/
abbrev Record (α : Type) := List (String × α)

/-- Property lookup `m[k]` (absent key / `undefined` becomes `none`). -/
def recordGet {α} (m : Record α) (k : String) : Option α :=
  (m.find? (fun p => p.1 == k)).map Prod.snd

/-- Property assignment `m[k] = v`: replaces the value in place when `k` is
present, appends a new property otherwise. -/
def recordSet {α} (m : Record α) (k : String) (v : α) : Record α :=
  match m with
  | [] => [(k, v)]
  | p :: rest => if p.1 == k then (k, v) :: rest else p :: recordSet rest k v

/-! ## Counter/gauge state and the reconciliation engine

From `MetricsCollectorDO` (`src/src/index.ts`): `CounterState`, `MetricState`
and the state-update loop at the end of `collectMetrics`. -/

/-- `CounterState { prev, accumulated }`: previous raw value from the API and
accumulated delta over time. -/
structure CounterState where
  prev : ℚ
  accumulated : ℚ
deriving DecidableEq, Repr

/-- `MetricState`: the Durable Object's stored metric state. -/
structure MetricState where
  counters : Record CounterState
  gauges : Record ℚ
  lastFetch : ℤ
  lastError : Option String
deriving DecidableEq, Repr

/-- Initial Durable Object state (`counters: {}, gauges: {}, lastFetch: 0,
lastError: undefined`). -/
def emptyState : MetricState := ⟨[], [], 0, none⟩

/-- One step of the counter-reconciliation loop in `collectMetrics`:
```
const existing = this.state.counters[key]
if (existing) {
  const delta = value < existing.prev ? value : value - existing.prev
  this.state.counters[key] = { prev: value, accumulated: existing.accumulated + delta }
} else {
  this.state.counters[key] = { prev: value, accumulated: value }
}
``` -/
def updateCounter (counters : Record CounterState) (key : String) (value : ℚ) :
    Record CounterState :=
  match recordGet counters key with
  | some existing =>
      let delta := if value < existing.prev then value else value - existing.prev
      recordSet counters key ⟨value, existing.accumulated + delta⟩
  | none => recordSet counters key ⟨value, value⟩

/-- The counter-update loop over one cycle's raw counter map (iterated in
insertion order, as a JS `Map` is). -/
def updateCounters (counters : Record CounterState) (obs : List (String × ℚ)) :
    Record CounterState :=
  obs.foldl (fun m o => updateCounter m o.1 o.2) counters

/-- The gauge-update loop: `this.state.gauges[key] = value`. -/
def updateGauges (gauges : Record ℚ) (obs : List (String × ℚ)) : Record ℚ :=
  obs.foldl (fun m o => recordSet m o.1 o.2) gauges

/-- One refresh cycle's raw observations, keyed by canonical metric key
(the `rawCounters` / `rawGauges` maps built during `collectMetrics`). -/
structure CycleResult where
  counterObs : List (String × ℚ)
  gaugeObs : List (String × ℚ)
deriving Repr

/-- State update performed by a successful `collectMetrics` run. -/
def applyCycle (st : MetricState) (c : CycleResult) : MetricState :=
  { st with
    counters := updateCounters st.counters c.counterObs
    gauges := updateGauges st.gauges c.gaugeObs }

/-- A sequence of successful refresh cycles. -/
def runCycles (st : MetricState) (cycles : List CycleResult) : MetricState :=
  cycles.foldl applyCycle st

/-- The accumulated total stored for a canonical metric key, when present. -/
def accumulatedAt (st : MetricState) (key : String) : Option ℚ :=
  (recordGet st.counters key).map CounterState.accumulated

/-! ## Canonical metric keys (`metricKey`, `src/src/index.ts`)

```
const metricKey = (name, labels) => {
  const sortedLabels = Object.entries(labels)
    .sort(([a], [b]) => a.localeCompare(b))
    .map(([k, v]) => `k=v`)
    .join(",")
  return `name{sortedLabels}`
}
```
A label set is embedded as its `Object.entries` enumeration (insertion order).
`localeCompare` is a total order on strings; it is embedded as the
lexicographic `≤` of `String` (which total order is used does not affect any
property below). -/

/-- A label set as enumerated by `Object.entries(labels)`. -/
abbrev Labels := List (String × String)

/-- Lexicographic comparison of strings as character lists (the total order
standing in for `localeCompare`). -/
def charListLe : List Char → List Char → Bool
  | [], _ => true
  | _ :: _, [] => false
  | a :: as, b :: bs =>
      if a < b then true else if b < a then false else charListLe as bs

/-- Comparator used by the label sort: compare entries by key. -/
def labelLE (p q : String × String) : Prop :=
  charListLe p.1.data q.1.data = true

instance : DecidableRel labelLE :=
  fun p q => inferInstanceAs (Decidable (charListLe p.1.data q.1.data = true))

instance : IsTotal (String × String) labelLE :=
  ⟨fun a b => by
    show charListLe a.1.data b.1.data = true ∨ charListLe b.1.data a.1.data = true
    have h : ∀ x y : List Char,
        charListLe x y = true ∨ charListLe y x = true := by
      intro x
      induction x with
      | nil => intro y; left; rfl
      | cons c cs ih =>
        intro y
        cases y with
        | nil => right; rfl
        | cons d ds =>
          rcases lt_trichotomy c d with hlt | hlt | hlt
          · left; simp [charListLe, hlt]
          · subst hlt
            rcases ih ds with h' | h' <;> [left; right] <;>
              simp [charListLe, lt_irrefl, h']
          · right; simp [charListLe, hlt]
    exact h a.1.data b.1.data⟩

instance : IsTrans (String × String) labelLE :=
  ⟨fun a b c hab hbc => by
    show charListLe a.1.data c.1.data = true
    have h : ∀ x y z : List Char, charListLe x y = true →
        charListLe y z = true → charListLe x z = true := by
      intro x
      induction x with
      | nil => intro y z _ _; rfl
      | cons cx xs ih =>
        intro y z hxy hyz
        cases y with
        | nil => simp [charListLe] at hxy
        | cons cy ys =>
          cases z with
          | nil => simp [charListLe] at hyz
          | cons cz zs =>
            by_cases h1 : cx < cy
            · by_cases h2 : cy < cz
              · simp [charListLe, lt_trans h1 h2]
              · by_cases h3 : cz < cy
                · simp [charListLe, h2, h3] at hyz
                · have hyzc : cy = cz := le_antisymm (not_lt.mp h3) (not_lt.mp h2)
                  subst hyzc
                  simp [charListLe, h1]
            · by_cases h1' : cy < cx
              · simp [charListLe, h1, h1'] at hxy
              · have hxyc : cx = cy := le_antisymm (not_lt.mp h1') (not_lt.mp h1)
                subst hxyc
                simp only [charListLe, lt_irrefl, if_false] at hxy
                by_cases h2 : cx < cz
                · simp [charListLe, h2]
                · by_cases h3 : cz < cx
                  · simp [charListLe, h2, h3] at hyz
                  · have hxzc : cx = cz := le_antisymm (not_lt.mp h3) (not_lt.mp h2)
                    subst hxzc
                    simp only [charListLe, lt_irrefl, if_false] at hyz ⊢
                    exact ih ys zs hxy hyz
    exact h a.1.data b.1.data c.1.data hab hbc⟩

/-- Strict version of `labelLE`; on lists whose keys are pairwise distinct the
two sortedness notions agree. -/
def labelLT (p q : String × String) : Prop :=
  labelLE p q ∧ p.1 ≠ q.1

instance : IsAntisymm (String × String) labelLT :=
  ⟨fun a b h1 h2 => by
    have h : ∀ x y : List Char, charListLe x y = true →
        charListLe y x = true → x = y := by
      intro x
      induction x with
      | nil =>
        intro y _ hba
        cases y with
        | nil => rfl
        | cons d ds => simp [charListLe] at hba
      | cons c cs ih =>
        intro y hxy hyx
        cases y with
        | nil => simp [charListLe] at hxy
        | cons d ds =>
          by_cases hlt : c < d
          · simp [charListLe, hlt, asymm hlt] at hyx
          · by_cases hgt : d < c
            · simp [charListLe, hlt, hgt] at hxy
            · have hcd : c = d := le_antisymm (not_lt.mp hgt) (not_lt.mp hlt)
              subst hcd
              simp only [charListLe, lt_irrefl, if_false] at hxy hyx
              rw [ih ds hxy hyx]
    exact absurd (String.ext (h a.1.data b.1.data h1.1 h2.1)) h1.2⟩

/-- `.sort(([a], [b]) => a.localeCompare(b))` on the entries list. -/
def sortLabels (labels : Labels) : Labels :=
  List.insertionSort labelLE labels

/-- `metricKey`: canonical key `name{k1=v1,k2=v2,...}` with label keys
sorted. -/
def metricKey (name : String) (labels : Labels) : String :=
  name ++ "\x7b" ++
    String.intercalate "," ((sortLabels labels).map (fun kv => kv.1 ++ "=" ++ kv.2)) ++
    "\x7d"

/-! ## Metric definitions (`METRICS`, `src/PrometheusRegistry.ts`) -/

/-- Metric type of a serialized metric family. -/
inductive MetricType
  | counter
  | gauge
deriving DecidableEq, Repr

/-- `(name, help)` pairs of the `METRICS` table, in declaration order (the
order `Object.values(METRICS)` enumerates them). -/
def METRICS_table : List (String × String) :=
  [("cloudflare_zone_requests_total", "Number of requests for zone"),
   ("cloudflare_zone_requests_cached", "Number of cached requests for zone"),
   ("cloudflare_zone_requests_ssl_encrypted", "Number of encrypted requests for zone"),
   ("cloudflare_zone_requests_content_type", "Number of requests per content type"),
   ("cloudflare_zone_requests_country", "Number of requests per country"),
   ("cloudflare_zone_requests_status", "Number of requests per HTTP status"),
   ("cloudflare_zone_requests_browser_map_page_views_count", "Page views per browser"),
   ("cloudflare_zone_requests_origin_status_country_host", "Requests per origin status, country, host"),
   ("cloudflare_zone_requests_status_country_host", "Requests per edge status, country, host"),
   ("cloudflare_zone_request_method_count", "Number of requests per HTTP method"),
   ("cloudflare_zone_bandwidth_total", "Total bandwidth per zone in bytes"),
   ("cloudflare_zone_bandwidth_cached", "Cached bandwidth per zone in bytes"),
   ("cloudflare_zone_bandwidth_ssl_encrypted", "Encrypted bandwidth per zone in bytes"),
   ("cloudflare_zone_bandwidth_content_type", "Bandwidth per content type"),
   ("cloudflare_zone_bandwidth_country", "Bandwidth per country"),
   ("cloudflare_zone_threats_total", "Threats per zone"),
   ("cloudflare_zone_threats_country", "Threats per country"),
   ("cloudflare_zone_threats_type", "Threats per type"),
   ("cloudflare_zone_pageviews_total", "Page views per zone"),
   ("cloudflare_zone_uniques_total", "Unique visitors per zone"),
   ("cloudflare_zone_colocation_visits", "Visits per colocation"),
   ("cloudflare_zone_colocation_edge_response_bytes", "Edge response bytes per colocation"),
   ("cloudflare_zone_colocation_requests_total", "Requests per colocation"),
   ("cloudflare_zone_colocation_visits_error", "Visits per colocation with error status codes (4xx/5xx)"),
   ("cloudflare_zone_colocation_edge_response_bytes_error", "Edge response bytes per colocation with error codes"),
   ("cloudflare_zone_colocation_requests_total_error", "Requests per colocation with error codes"),
   ("cloudflare_zone_firewall_events_count", "Count of firewall events"),
   ("cloudflare_zone_firewall_request_action", "Firewall events per action"),
   ("cloudflare_zone_firewall_bots_detected", "Bot requests detected"),
   ("cloudflare_zone_health_check_events_origin_count", "Health check events per origin"),
   ("cloudflare_zone_health_check_events_avg", "Average health check events"),
   ("cloudflare_worker_requests_count", "Worker requests count"),
   ("cloudflare_worker_errors_count", "Worker errors count"),
   ("cloudflare_worker_cpu_time", "Worker CPU time quantiles"),
   ("cloudflare_worker_duration", "Worker duration quantiles (GB*s)"),
   ("cloudflare_zone_pool_health_status", "Pool health status (1=healthy, 0=unhealthy)"),
   ("cloudflare_zone_pool_requests_total", "Requests per pool"),
   ("cloudflare_logpush_failed_jobs_account_count", "Failed logpush jobs (account level)"),
   ("cloudflare_logpush_failed_jobs_zone_count", "Failed logpush jobs (zone level)"),
   ("cloudflare_zone_customer_error_4xx_rate", "4xx error rate"),
   ("cloudflare_zone_customer_error_5xx_rate", "5xx error rate"),
   ("cloudflare_zone_edge_error_rate", "Edge error rate (4xx and 5xx)"),
   ("cloudflare_zone_origin_error_rate", "Origin error rate"),
   ("cloudflare_zone_origin_response_duration_ms", "Origin response duration in ms"),
   ("cloudflare_zone_cache_hit_ratio", "Cache hit ratio"),
   ("cloudflare_zone_bot_request_by_country", "Bot requests per country"),
   ("cloudflare_magic_transit_active_tunnels", "Number of active Magic Transit tunnels"),
   ("cloudflare_magic_transit_healthy_tunnels", "Number of healthy Magic Transit tunnels"),
   ("cloudflare_magic_transit_tunnel_failures", "Number of failed Magic Transit tunnels"),
   ("cloudflare_magic_transit_edge_colo_count", "Number of edge colocation sites"),
   ("cloudflare_zone_certificate_validation_status", "SSL certificate expiry timestamp"),
   ("cloudflare_exporter_up", "Cloudflare exporter is up"),
   ("cloudflare_zones_total", "Total number of zones"),
   ("cloudflare_zones_filtered", "Zones after filtering"),
   ("cloudflare_zones_processed", "Zones actually processed")]

/-- `getHelp` from `serializeMetrics`: first `METRICS` entry with a matching
name, defaulting to the name itself. -/
def getHelp (name : String) : String :=
  ((METRICS_table.find? (fun m => m.1 == name)).map Prod.snd).getD name

/-! ## The Durable Object serializer (`serializeMetrics`, `src/src/index.ts`)

The serializer is embedded as a function to a list of structured exposition
lines (`ExpoLine`), each of which renders to one output line of the actual
response body (`renderLine`); the response is the rendered lines joined by
newlines. -/

/-- The opening-brace character. -/
def lbrace : Char := Char.ofNat 123

/-- The closing-brace character. -/
def rbrace : Char := Char.ofNat 125

/-- The newline character. -/
def newlineChar : Char := Char.ofNat 10

/-- `parseKey`: splits a canonical key into metric name and label segment via
the regex `^([^...]+)(...)?$` (one or more non-open-brace characters, then an
optional brace-delimited segment in which `.` matches anything but a newline);
on no match the whole key is the name and the label segment is empty. -/
def parseKey (key : String) : String × String :=
  let chars := key.data
  let preChars := chars.takeWhile (fun c => c ≠ lbrace)
  let restChars := chars.drop preChars.length
  if preChars = [] then (key, "")
  else if restChars = [] then (String.mk preChars, "")
  else if 2 ≤ restChars.length && restChars.getLast? == some rbrace &&
      !((restChars.drop 1).dropLast.contains newlineChar) then
    (String.mk preChars, String.mk restChars)
  else (key, "")

/-- One value pushed into the per-name grouping map of `serializeMetrics`:
`{ labels, value, type }` (labels kept as the key's label segment string). -/
structure SampleEntry where
  labels : String
  value : ℚ
  type : MetricType
deriving DecidableEq, Repr

/-- One line of the exposition output, structured. -/
inductive ExpoLine
  | help (name helpText : String)
  | typ (name : String) (t : MetricType)
  | sample (name labelSegment : String) (value : ℚ)
  | staleness (seconds : ℤ)
  | lastErr (message : String)
deriving DecidableEq, Repr

/-- The metric name a `HELP`/`TYPE`/sample line is about (`none` for the
trailing annotation comments). -/
def lineName : ExpoLine → Option String
  | .help n _ => some n
  | .typ n _ => some n
  | .sample n _ _ => some n
  | .staleness _ => none
  | .lastErr _ => none

def MetricType.render : MetricType → String
  | .counter => "counter"
  | .gauge => "gauge"

/-- Rendering of a structured line to output text.  (JS stringifies numbers in
decimal; `ℚ` renders integral values identically, which covers every value the
claims evaluate.) -/
def renderLine : ExpoLine → String
  | .help n h => "# HELP " ++ n ++ " " ++ h
  | .typ n t => "# TYPE " ++ n ++ " " ++ t.render
  | .sample n ls v => n ++ ls ++ " " ++ toString v
  | .staleness s => "# Metrics staleness: " ++ toString s ++ "s"
  | .lastErr e => "# Last error: " ++ e

/-- `metricsByName` insertion: `if (!has(name)) set(name, []); get(name).push(v)`
on a JS `Map`, i.e. append to an existing group in place, else append a new
group at the end. -/
def groupInsert (gs : List (String × List SampleEntry)) (name : String)
    (e : SampleEntry) : List (String × List SampleEntry) :=
  match gs with
  | [] => [(name, [e])]
  | g :: rest =>
      if g.1 == name then (g.1, g.2 ++ [e]) :: rest
      else g :: groupInsert rest name e

/-- Building `metricsByName`: counters first (with their accumulated values),
then gauges, in state-object key order. -/
def serializeGroups (st : MetricState) : List (String × List SampleEntry) :=
  let withCounters := st.counters.foldl
    (fun gs kv =>
      groupInsert gs (parseKey kv.1).1 ⟨(parseKey kv.1).2, kv.2.accumulated, .counter⟩)
    []
  st.gauges.foldl
    (fun gs kv => groupInsert gs (parseKey kv.1).1 ⟨(parseKey kv.1).2, kv.2, .gauge⟩)
    withCounters

/-- Output block for one metric name: skipped when empty, else one `HELP`
line, one `TYPE` line taking the type of the first value, then one sample line
per value. -/
def groupLines (g : String × List SampleEntry) : List ExpoLine :=
  match g.2 with
  | [] => []
  | e :: _ =>
      ExpoLine.help g.1 (getHelp g.1) :: ExpoLine.typ g.1 e.type ::
        g.2.map (fun s => ExpoLine.sample g.1 s.labels s.value)

/-- JS `Math.round` on an exact rational. -/
def jsRound (q : ℚ) : ℤ := ⌊q + 1 / 2⌋

/-- `serializeMetrics`: the grouped metric blocks, then the staleness comment
(`Math.round((Date.now() - lastFetch) / 1000)` when a fetch has succeeded,
`-1` otherwise), then the last-error comment when `lastError` is truthy. -/
def serializeMetricsLines (st : MetricState) (now : ℤ) : List ExpoLine :=
  (serializeGroups st).flatMap groupLines ++
    [ExpoLine.staleness
      (if 0 < st.lastFetch then jsRound (((now - st.lastFetch : ℤ) : ℚ) / 1000) else -1)] ++
    (match st.lastError with
     | some e => if e = "" then [] else [ExpoLine.lastErr e]
     | none => [])

/-- The `/metrics` response body of the Durable Object. -/
def serializeMetricsText (st : MetricState) (now : ℤ) : String :=
  String.intercalate "\n" ((serializeMetricsLines st now).map renderLine)

/-! ## The registry serializer (`src/PrometheusRegistry.ts`)

The Effect-based worker records observations through `counter`/`gauge`, which
check the denylist (`isAllowed`) before anything is stored, and serializes the
registry contents on demand. -/

/-- `MetricDefinition { name, help, type, values }`. -/
structure MetricDefn where
  name : String
  help : String
  type : MetricType
  values : List (Labels × ℚ)
deriving DecidableEq, Repr

/-- A `registry.counter(...)` or `registry.gauge(...)` call. -/
inductive RegistryOp
  | counter (name helpText : String) (labels : Labels) (value : ℚ)
  | gauge (name helpText : String) (labels : Labels) (value : ℚ)
deriving DecidableEq, Repr

/-- `getOrCreateMetric` followed by `metric.values.push({labels, value})`:
an existing metric with the name keeps its stored help and type and gains the
value; otherwise a new metric is appended with the requested help and type. -/
def pushValue (metrics : List MetricDefn) (name helpText : String)
    (t : MetricType) (labels : Labels) (value : ℚ) : List MetricDefn :=
  match metrics with
  | [] => [⟨name, helpText, t, [(labels, value)]⟩]
  | m :: rest =>
      if m.name == name then
        { m with values := m.values ++ [(labels, value)] } :: rest
      else m :: pushValue rest name helpText t labels value

/-- One registry operation: a no-op when the name fails `isAllowed` (i.e. is in
the configured denylist), else record the value under the name. -/
def registryRecord (denylist : List String) (metrics : List MetricDefn)
    (op : RegistryOp) : List MetricDefn :=
  match op with
  | .counter name helpText labels value =>
      if denylist.contains name then metrics
      else pushValue metrics name helpText .counter labels value
  | .gauge name helpText labels value =>
      if denylist.contains name then metrics
      else pushValue metrics name helpText .gauge labels value

/-- A sequence of recording calls against a fresh registry. -/
def registryApply (denylist : List String) (ops : List RegistryOp) :
    List MetricDefn :=
  ops.foldl (registryRecord denylist) []

/-- One escaped character of a label value; the chained
`replace(backslash)...replace(quote)...replace(newline)` of `formatLabels` is
equivalent to this single pass because the replacements only ever introduce
backslashes before quotes and `n`s, which the later passes do not touch. -/
def escapeChar (c : Char) : String :=
  if c = '\\' then "\\\\"
  else if c = '"' then "\\\""
  else if c = newlineChar then "\\n"
  else String.singleton c

/-- Escaping of one label value in `formatLabels`. -/
def escapeLabelValue (v : String) : String :=
  String.join (v.data.map escapeChar)

/-- `formatLabels`: empty string for no labels, else the quoted, escaped,
comma-joined `k="v"` list in braces. -/
def formatLabels (labels : Labels) : String :=
  if labels = [] then ""
  else
    "\x7b" ++
      String.intercalate ","
        (labels.map (fun kv => kv.1 ++ "=\"" ++ escapeLabelValue kv.2 ++ "\"")) ++
      "\x7d"

/-- `registry.serialize()`: for every stored metric, a `HELP` line, a `TYPE`
line, and one sample line per recorded value. -/
def registrySerializeLines (metrics : List MetricDefn) : List ExpoLine :=
  metrics.flatMap (fun m =>
    ExpoLine.help m.name m.help :: ExpoLine.typ m.name m.type ::
      m.values.map (fun v => ExpoLine.sample m.name (formatLabels v.1) v.2))

/-- The serialized registry text. -/
def registrySerializeText (metrics : List MetricDefn) : String :=
  String.intercalate "\n" ((registrySerializeLines metrics).map renderLine)

/-! ### Derived views of the Durable Object serializer, used to state and
prove its grouping behaviour. -/

/-- The `(name, sample)` pairs fed into `metricsByName`, in feed order:
counter entries (accumulated values) then gauge entries. -/
def doEntries (st : MetricState) : List (String × SampleEntry) :=
  st.counters.map
    (fun kv => ((parseKey kv.1).1, ⟨(parseKey kv.1).2, kv.2.accumulated, MetricType.counter⟩)) ++
  st.gauges.map
    (fun kv => ((parseKey kv.1).1, ⟨(parseKey kv.1).2, kv.2, MetricType.gauge⟩))

/-- Folding a list of `(name, sample)` pairs into the grouping map. -/
def groupFold (entries : List (String × SampleEntry)) :
    List (String × List SampleEntry) :=
  entries.foldl (fun gs e => groupInsert gs e.1 e.2) []

/-- How one fold step extends the group stored under a name. -/
def extendGroup (o : Option (List SampleEntry)) (l : List SampleEntry) :
    Option (List SampleEntry) :=
  match o with
  | some xs => some (xs ++ l)
  | none => if l = [] then none else some l

/-- The type of the first sample recorded under a name (counters precede
gauges in the feed, so a name with counter state gets `counter`). -/
def firstTypeFor (st : MetricState) (name : String) : Option MetricType :=
  ((doEntries st).find? (fun e => e.1 == name)).map (fun e => e.2.type)

/-- Whether a structured line is a sample line for the given name. -/
def isSampleFor (name : String) : ExpoLine → Bool
  | .sample n _ _ => n == name
  | _ => false

/-- The trailing annotation lines of `serializeMetrics` (staleness comment and
optional last-error comment). -/
def annotationLines (st : MetricState) (now : ℤ) : List ExpoLine :=
  [ExpoLine.staleness
    (if 0 < st.lastFetch then jsRound (((now - st.lastFetch : ℤ) : ℚ) / 1000) else -1)] ++
  (match st.lastError with
   | some e => if e = "" then [] else [ExpoLine.lastErr e]
   | none => [])

/-- State after one Durable Object cycle that observed raw value 5 for the
counter `cloudflare_zone_requests_total{zone="a"}`. -/
def recordedExampleState : MetricState :=
  applyCycle emptyState
    ⟨[(metricKey "cloudflare_zone_requests_total" [("zone", "a")], 5)], []⟩

/-! ## The retry policy (`src/src/CloudflareClient.ts`)

`graphql`/`restApi` wrap one upstream call and retry it with
`Effect.retry(Schedule.recurWhile(isRetryable).intersect(retrySchedule))`,
where `retrySchedule = Schedule.exponential("100 millis") ∩ Schedule.recurs(3)`,
jittered.  The loop is embedded over an abstract stream of attempt outcomes
(attempt `i` sees `outcomes i`); delays and jitter affect only timing, not
which attempts run. -/

/-- A failure of one upstream call: `CloudflareApiError { statusCode?,
retryable?, message }` or `GraphQLError { messages }`. -/
inductive CFError
  | api (statusCode : Option ℕ) (retryable : Option Bool) (message : String)
  | gql (messages : List String)
deriving DecidableEq, Repr

/-- `isRetryable`: `GraphQLError` never; HTTP 429 always; HTTP ≥ 500 always;
otherwise the error's own `retryable` flag, defaulting to false. -/
def isRetryable : CFError → Bool
  | .gql _ => false
  | .api sc r _ =>
    match sc with
    | some s => if s == 429 then true else if 500 ≤ s then true else r.getD false
    | none => r.getD false

/-- One upstream interaction as the `graphql` wrapper sees it: either the
`fetch` promise rejects (network/connection failure), or a response arrives
with an HTTP status, the query-level GraphQL errors of its body, and a
payload. -/
inductive FetchOutcome (α : Type)
  | response (status : ℕ) (statusText : String) (gqlErrors : List String) (payload : α)
  | networkFailure (message : String)

/-- One attempt of the `graphql` wrapper: status 429 becomes a retryable
rate-limit error; any other non-2xx status becomes an api error retryable iff
the status is ≥ 500; a body with query-level errors becomes a `GraphQLError`;
a rejected promise becomes an api error marked retryable. -/
def graphqlAttempt {α} : FetchOutcome α → Except CFError α
  | .networkFailure msg => .error (.api none (some true) msg)
  | .response status statusText errs payload =>
    if status == 429 then
      .error (.api (some 429) (some true) "Rate limited by Cloudflare API")
    else if !(200 ≤ status && status < 300) then
      .error (.api (some status) (some (decide (500 ≤ status)))
        ("GraphQL request failed: " ++ toString status ++ " " ++ statusText))
    else if errs ≠ [] then .error (.gql errs)
    else .ok payload

/-- Modelled from the spec: a failure cause the claim calls retryable — a
network/connection error, HTTP 429, or HTTP status ≥ 500. -/
def retryableOutcome {α} : FetchOutcome α → Prop
  | .networkFailure _ => True
  | .response status _ _ _ => status = 429 ∨ 500 ≤ status

/-- `Schedule.recurs(3)`: the fixed maximum retry count. -/
def maxRetries : ℕ := 3

/-- Nominal (pre-jitter) backoff delay before the (n+1)-st retry,
`Schedule.exponential("100 millis")` in milliseconds. -/
def retryDelayMs (n : ℕ) : ℕ := 100 * 2 ^ n

/-- The retry loop: run attempt `i`; on a retryable error with retry budget
left move on to the next attempt, otherwise surface the result.  Returns the
number of attempts made and the final result. -/
def retryLoop {α} (attempts : ℕ → Except CFError α) :
    ℕ → ℕ → ℕ × Except CFError α
  | i, fuel =>
    match attempts i with
    | .ok v => (i + 1, .ok v)
    | .error e =>
      match fuel with
      | 0 => (i + 1, .error e)
      | fuel' + 1 =>
        if isRetryable e then retryLoop attempts (i + 1) fuel'
        else (i + 1, .error e)

/-- A retried upstream call: the retry loop from attempt 0 with the fixed
retry budget. -/
def runWithRetry {α} (attempts : ℕ → Except CFError α) : ℕ × Except CFError α :=
  retryLoop attempts 0 maxRetries

/-- Length of the leading run of retryable failures from attempt `i`, capped
at `fuel`. -/
def countRetryable {α} (attempts : ℕ → Except CFError α) : ℕ → ℕ → ℕ
  | _, 0 => 0
  | i, fuel + 1 =>
    match attempts i with
    | .error e =>
        if isRetryable e then countRetryable attempts (i + 1) fuel + 1 else 0
    | .ok _ => 0

/-! ## Zone filtering (`MetricsCollector.filterZones` and the Durable Object
collection pipeline, `src/src/index.ts` lines 425-438) -/

/-- A zone of the fetched inventory, with the fields the pipeline uses
(`plan.id` and `account.name` flattened). -/
structure Zone where
  id : String
  name : String
  planId : String
  accountName : String
deriving DecidableEq, Repr

/-- The free-tier plan ID constant. -/
def FREE_TIER_PLAN_ID : String := "0feeeeeeeeeeeeeeeeeeeeeeeeeeeeee"

/-- Zone-filter configuration: `CF_ZONES` include list, `CF_EXCLUDE_ZONES`
exclude list, `FREE_TIER` flag. -/
structure ZoneFilterConfig where
  zones : List String
  excludeZones : List String
  freeTier : Bool
deriving Repr

/-- `filterZones`: keep only listed IDs when the include list is non-empty,
then drop listed IDs when the exclude list is non-empty. -/
def filterZones (cfg : ZoneFilterConfig) (zs : List Zone) : List Zone :=
  let f1 :=
    if 0 < cfg.zones.length then zs.filter (fun z => cfg.zones.contains z.id)
    else zs
  if 0 < cfg.excludeZones.length then
    f1.filter (fun z => !cfg.excludeZones.contains z.id)
  else f1

/-- `nonFreeZones`: the free-tier downgrade.  When free-tier mode is off,
free-plan zones are dropped here — before `zoneIDs` is computed, so they are
dropped from every per-zone category, not only premium-only ones. -/
def nonFreeZones (cfg : ZoneFilterConfig) (zs : List Zone) : List Zone :=
  if cfg.freeTier then filterZones cfg zs
  else (filterZones cfg zs).filter (fun z => z.planId != FREE_TIER_PLAN_ID)

/-- `zoneIDs`: the IDs batched and fed to every per-zone category fetch. -/
def processedZoneIDs (cfg : ZoneFilterConfig) (zs : List Zone) : List String :=
  (nonFreeZones cfg zs).map Zone.id

/-- The zone-ID set a per-zone telemetry category works on.  Premium-only
categories (colocation, colocation-error, load balancer, zone logpush, SSL)
are skipped entirely when free-tier mode is on; every category that does run
uses `processedZoneIDs`. -/
def zoneIDsForCategory (cfg : ZoneFilterConfig) (zs : List Zone)
    (premiumOnly : Bool) : List String :=
  if premiumOnly && cfg.freeTier then [] else processedZoneIDs cfg zs

/-- The single-pass predicate the claim describes the processed set with. -/
def claimZonePredicate (cfg : ZoneFilterConfig) (z : Zone) : Bool :=
  (cfg.zones.isEmpty || cfg.zones.contains z.id) &&
  !cfg.excludeZones.contains z.id &&
  (cfg.freeTier || z.planId != FREE_TIER_PLAN_ID)

/-! ## Per-zone HTTP metrics processing (`src/src/index.ts` lines 474-590,
`MetricsCollector.collectHTTPMetrics`)

The body of the `for (const zone of httpData.viewer.zones)` loop, as a
function from one zone's response row to the observations it contributes. -/

/-- `name.toLowerCase().replace(/ /g, "-")`. -/
def normalizeAccountName (name : String) : String :=
  (name.map Char.toLower).map (fun c => if c = ' ' then '-' else c)

/-- The `{ name, account }` pair `findZoneInfo` produces. -/
structure ZoneInfo where
  name : String
  account : String
deriving DecidableEq, Repr

/-- `findZoneInfo`: the first zone in the inventory with the given tag. -/
def findZoneInfo (zones : List Zone) (zoneTag : String) : Option ZoneInfo :=
  (zones.find? (fun z => z.id == zoneTag)).map
    (fun z => ⟨z.name, normalizeAccountName z.accountName⟩)

/-- One entry of `sum.contentTypeMap`. -/
structure ContentTypeEntry where
  edgeResponseContentTypeName : String
  requests : ℚ
  bytes : ℚ
deriving DecidableEq, Repr

/-- One entry of `sum.countryMap`. -/
structure CountryEntry where
  clientCountryName : String
  requests : ℚ
  bytes : ℚ
  threats : ℚ
deriving DecidableEq, Repr

/-- One entry of `sum.responseStatusMap`. -/
structure StatusEntry where
  edgeResponseStatus : ℤ
  requests : ℚ
deriving DecidableEq, Repr

/-- One entry of `sum.browserMap`. -/
structure BrowserEntry where
  uaBrowserFamily : String
  pageViews : ℚ
deriving DecidableEq, Repr

/-- One entry of `sum.threatPathingMap`. -/
structure ThreatEntry where
  threatPathingName : String
  requests : ℚ
deriving DecidableEq, Repr

/-- One element of `httpRequests1mGroups` (`uniq.uniques` flattened). -/
structure HTTPGroup where
  requests : ℚ
  cachedRequests : ℚ
  encryptedRequests : ℚ
  bytes : ℚ
  cachedBytes : ℚ
  encryptedBytes : ℚ
  threats : ℚ
  pageViews : ℚ
  uniques : ℚ
  contentTypeMap : List ContentTypeEntry
  countryMap : List CountryEntry
  responseStatusMap : List StatusEntry
  browserMap : List BrowserEntry
  threatPathingMap : List ThreatEntry
deriving DecidableEq, Repr

/-- One element of `firewallEventsAdaptiveGroups` (dimensions flattened). -/
structure FirewallEventGroup where
  count : ℚ
  action : String
  source : String
  ruleId : String
  clientRequestHTTPHost : String
  clientCountryName : String
deriving DecidableEq, Repr

/-- One element of `httpData.viewer.zones`. -/
structure HTTPZoneResult where
  zoneTag : String
  httpRequests1mGroups : List HTTPGroup
  firewallEventsAdaptiveGroups : List FirewallEventGroup
deriving DecidableEq, Repr

/-- One raw observation fed to `addCounter`/`addGauge`. -/
inductive Obs
  | counter (name : String) (labels : Labels) (value : ℚ)
  | gauge (name : String) (labels : Labels) (value : ℚ)
deriving DecidableEq, Repr

/-- The configuration options the HTTP-zone processing reads. -/
structure HTTPConfig where
  httpStatusGroup : Bool
  excludeHost : Bool
deriving Repr

/-- `getLabels`: the base labels, plus a `host` label when the host is
present (truthy) and `excludeHost` is off. -/
def getLabels (cfg : HTTPConfig) (base : Labels) (host : Option String) : Labels :=
  match host with
  | none => base
  | some h => if cfg.excludeHost || h = "" then base else base ++ [("host", h)]

/-- The status-code buckets of the `httpStatusGroup` branch: a chained
`< 200 / < 300 / < 400 / < 500 / else` classification summed per bucket. -/
def statusBucketSum (statusMap : List StatusEntry) (lo hi : Option ℤ) : ℚ :=
  ((statusMap.filter (fun s =>
      (match lo with | some l => decide (l ≤ s.edgeResponseStatus) | none => true) &&
      (match hi with | some h => decide (s.edgeResponseStatus < h) | none => true))).map
    StatusEntry.requests).sum

/-- Observations of one `httpRequests1mGroups` element (the group-derived part
of the zone loop body, source order preserved). -/
def httpGroupObs (cfg : HTTPConfig) (info : ZoneInfo) (group : HTTPGroup) : List Obs :=
  let baseLabels : Labels := [("zone", info.name), ("account", info.account)]
  [Obs.counter "cloudflare_zone_requests_total" baseLabels group.requests,
   Obs.gauge "cloudflare_zone_requests_cached" baseLabels group.cachedRequests,
   Obs.counter "cloudflare_zone_requests_ssl_encrypted" baseLabels group.encryptedRequests,
   Obs.counter "cloudflare_zone_bandwidth_total" baseLabels group.bytes,
   Obs.counter "cloudflare_zone_bandwidth_cached" baseLabels group.cachedBytes,
   Obs.counter "cloudflare_zone_bandwidth_ssl_encrypted" baseLabels group.encryptedBytes,
   Obs.counter "cloudflare_zone_threats_total" baseLabels group.threats,
   Obs.counter "cloudflare_zone_pageviews_total" baseLabels group.pageViews,
   Obs.counter "cloudflare_zone_uniques_total" baseLabels group.uniques] ++
  (if 0 < group.requests then
    [Obs.gauge "cloudflare_zone_cache_hit_ratio"
      (baseLabels ++
        [("requests", toString group.requests),
         ("cachedRequests", toString group.cachedRequests)])
      (group.cachedRequests / group.requests)]
   else []) ++
  group.contentTypeMap.flatMap (fun ct =>
    [Obs.counter "cloudflare_zone_requests_content_type"
       (baseLabels ++ [("content_type", ct.edgeResponseContentTypeName)]) ct.requests,
     Obs.counter "cloudflare_zone_bandwidth_content_type"
       (baseLabels ++ [("content_type", ct.edgeResponseContentTypeName)]) ct.bytes]) ++
  group.countryMap.flatMap (fun c =>
    [Obs.counter "cloudflare_zone_requests_country"
       (baseLabels ++ [("country", c.clientCountryName)]) c.requests,
     Obs.counter "cloudflare_zone_bandwidth_country"
       (baseLabels ++ [("country", c.clientCountryName)]) c.bytes,
     Obs.counter "cloudflare_zone_threats_country"
       (baseLabels ++ [("country", c.clientCountryName)]) c.threats]) ++
  (if cfg.httpStatusGroup then
    [Obs.counter "cloudflare_zone_requests_status" (baseLabels ++ [("status", "1xx")])
       (statusBucketSum group.responseStatusMap none (some 200)),
     Obs.counter "cloudflare_zone_requests_status" (baseLabels ++ [("status", "2xx")])
       (statusBucketSum group.responseStatusMap (some 200) (some 300)),
     Obs.counter "cloudflare_zone_requests_status" (baseLabels ++ [("status", "3xx")])
       (statusBucketSum group.responseStatusMap (some 300) (some 400)),
     Obs.counter "cloudflare_zone_requests_status" (baseLabels ++ [("status", "4xx")])
       (statusBucketSum group.responseStatusMap (some 400) (some 500)),
     Obs.counter "cloudflare_zone_requests_status" (baseLabels ++ [("status", "5xx")])
       (statusBucketSum group.responseStatusMap (some 500) none)]
   else
    group.responseStatusMap.map (fun s =>
      Obs.counter "cloudflare_zone_requests_status"
        (baseLabels ++ [("status", toString s.edgeResponseStatus)]) s.requests)) ++
  group.browserMap.map (fun b =>
    Obs.counter "cloudflare_zone_requests_browser_map_page_views_count"
      (baseLabels ++ [("family", b.uaBrowserFamily)]) b.pageViews) ++
  group.threatPathingMap.map (fun t =>
    Obs.counter "cloudflare_zone_threats_type"
      (baseLabels ++ [("type", t.threatPathingName)]) t.requests)

/-- Observations of one `firewallEventsAdaptiveGroups` element. -/
def firewallObs (cfg : HTTPConfig) (info : ZoneInfo)
    (firewallRules : Record String) (fw : FirewallEventGroup) : List Obs :=
  let ruleDesc := (recordGet firewallRules fw.ruleId).getD fw.ruleId
  let baseLabels : Labels := [("zone", info.name), ("account", info.account)]
  [Obs.counter "cloudflare_zone_firewall_events_count" baseLabels fw.count,
   Obs.counter "cloudflare_zone_firewall_request_action"
     (baseLabels ++ [("action", fw.action), ("rule", ruleDesc)]) fw.count,
   Obs.counter "cloudflare_zone_bot_request_by_country"
     (getLabels cfg
       (baseLabels ++ [("country", fw.clientCountryName), ("action", fw.action)])
       (some fw.clientRequestHTTPHost)) fw.count,
   Obs.counter "cloudflare_zone_firewall_bots_detected"
     (getLabels cfg
       (baseLabels ++ [("source", fw.source), ("action", fw.action)])
       (some fw.clientRequestHTTPHost)) fw.count]

/-- The zone loop body of the HTTP-metrics section: skip unknown zones; skip
the whole zone when `httpRequests1mGroups` is empty; otherwise process
`groups[0]` only, then every firewall event group. -/
def processHTTPZone (cfg : HTTPConfig) (nonFree : List Zone)
    (firewallRules : Record String) (z : HTTPZoneResult) : List Obs :=
  match findZoneInfo nonFree z.zoneTag with
  | none => []
  | some info =>
    match z.httpRequests1mGroups with
    | [] => []
    | group :: _ =>
      httpGroupObs cfg info group ++
        z.firewallEventsAdaptiveGroups.flatMap (firewallObs cfg info firewallRules)

/-! ## Theorems -/

theorem recordGet_nil {α} (k : String) : recordGet ([] : Record α) k = none := rfl

theorem recordGet_cons {α} (p : String × α) (rest : Record α) (k : String) :
    recordGet (p :: rest) k = if p.1 == k then some p.2 else recordGet rest k := by
  by_cases h : p.1 = k <;> simp [recordGet, List.find?_cons, h]

theorem recordGet_recordSet_self {α} (m : Record α) (k : String) (v : α) :
    recordGet (recordSet m k v) k = some v := by
  induction m with
  | nil => simp [recordSet, recordGet_cons, recordGet_nil]
  | cons p rest ih =>
    by_cases h : p.1 = k
    · simp [recordSet, h, recordGet_cons]
    · simp [recordSet, h, recordGet_cons, ih]

theorem recordGet_recordSet_ne {α} (m : Record α) (k k' : String) (v : α)
    (h : k' ≠ k) : recordGet (recordSet m k v) k' = recordGet m k' := by
  induction m with
  | nil => simp [recordSet, recordGet_cons, recordGet_nil, Ne.symm h]
  | cons p rest ih =>
    by_cases hp : p.1 = k
    · subst hp
      simp [recordSet, recordGet_cons, Ne.symm h, h]
    · simp [recordSet, hp, recordGet_cons, ih]

theorem updateCounter_accumulated_le (m : Record CounterState) (key k : String)
    (value : ℚ) (hv : 0 ≤ value) (cs : CounterState)
    (h : recordGet m k = some cs) :
    ∃ cs', recordGet (updateCounter m key value) k = some cs' ∧
      cs.accumulated ≤ cs'.accumulated := by
  by_cases hk : k = key
  · subst hk
    rw [updateCounter, h]
    refine ⟨_, recordGet_recordSet_self m k _, ?_⟩
    by_cases hlt : value < cs.prev
    · simpa [hlt] using hv
    · have : cs.prev ≤ value := le_of_not_lt hlt
      simp only [hlt, if_false]
      linarith
  · rw [updateCounter]
    cases recordGet m key with
    | some existing =>
        exact ⟨cs, by rw [recordGet_recordSet_ne _ _ _ _ hk, h], le_refl _⟩
    | none =>
        exact ⟨cs, by rw [recordGet_recordSet_ne _ _ _ _ hk, h], le_refl _⟩

theorem updateCounters_accumulated_le (obs : List (String × ℚ))
    (m : Record CounterState) (k : String)
    (hobs : ∀ o ∈ obs, 0 ≤ o.2) (cs : CounterState)
    (h : recordGet m k = some cs) :
    ∃ cs', recordGet (updateCounters m obs) k = some cs' ∧
      cs.accumulated ≤ cs'.accumulated := by
  induction obs generalizing m cs with
  | nil => exact ⟨cs, h, le_refl _⟩
  | cons o rest ih =>
    obtain ⟨cs₁, h₁, hle₁⟩ :=
      updateCounter_accumulated_le m o.1 k o.2 (hobs o (List.mem_cons_self o rest)) cs h
    obtain ⟨cs₂, h₂, hle₂⟩ :=
      ih (updateCounter m o.1 o.2) (fun x hx => hobs x (List.mem_cons_of_mem o hx)) cs₁ h₁
    exact ⟨cs₂, h₂, le_trans hle₁ hle₂⟩

theorem runCycles_accumulated_le (cycles : List CycleResult) (st : MetricState)
    (k : String) (hc : ∀ c ∈ cycles, ∀ o ∈ c.counterObs, 0 ≤ o.2)
    (a : ℚ) (h : accumulatedAt st k = some a) :
    ∃ a', accumulatedAt (runCycles st cycles) k = some a' ∧ a ≤ a' := by
  induction cycles generalizing st a with
  | nil => exact ⟨a, h, le_refl _⟩
  | cons c rest ih =>
    obtain ⟨cs, hcs, rfl⟩ :
        ∃ cs, recordGet st.counters k = some cs ∧ cs.accumulated = a := by
      unfold accumulatedAt at h
      cases hg : recordGet st.counters k with
      | none => rw [hg] at h; cases h
      | some cs => rw [hg] at h; exact ⟨cs, rfl, by simpa using h⟩
    obtain ⟨cs₁, h₁, hle₁⟩ :=
      updateCounters_accumulated_le c.counterObs st.counters k
        (hc c (List.mem_cons_self c rest)) cs hcs
    obtain ⟨a', h₂, hle₂⟩ :=
      ih (applyCycle st c) (fun x hx => hc x (List.mem_cons_of_mem c hx))
        cs₁.accumulated
        (by simpa [accumulatedAt, applyCycle] using congrArg (Option.map CounterState.accumulated) h₁)
    exact ⟨a', by simpa [runCycles] using h₂, le_trans hle₁ hle₂⟩

/-- C1: For every MetricIdentity with CounterState and every sequence of
refresh cycles applying raw counter observations (raw counter observations in
this program are counts, hence non-negative — including sequences in which the
raw value decreases), the accumulated total observed after a later cycle is
greater than or equal to the accumulated total observed after any earlier
cycle. -/
theorem accumulatedTotal_monotone (st0 : MetricState)
    (earlier later : List CycleResult) (key : String) (a : ℚ)
    (hnonneg : ∀ c ∈ later, ∀ o ∈ c.counterObs, 0 ≤ o.2)
    (ha : accumulatedAt (runCycles st0 earlier) key = some a) :
    ∃ a', accumulatedAt (runCycles st0 (earlier ++ later)) key = some a' ∧
      a ≤ a' := by
  rw [runCycles, List.foldl_append]
  exact runCycles_accumulated_le later (runCycles st0 earlier) key hnonneg a ha

/-- Witness for C1 at a concrete reset sequence: after `[100]` the total is
100; appending the decreasing observations `[40, 90]` can only raise it. -/
theorem accumulatedTotal_monotone_witness :
    ∃ a', accumulatedAt
        (runCycles emptyState
          ([⟨[("k", 100)], []⟩] ++ [⟨[("k", 40)], []⟩, ⟨[("k", 90)], []⟩]))
        "k" = some a' ∧ (100 : ℚ) ≤ a' :=
  accumulatedTotal_monotone emptyState [⟨[("k", 100)], []⟩]
    [⟨[("k", 40)], []⟩, ⟨[("k", 90)], []⟩] "k" 100
    (by decide) (by decide)

/-- C2: starting from empty state, the raw observation sequence
`[100, 150, 40, 90]` for one MetricIdentity yields the accumulated-total
sequence `[100, 150, 190, 240]`: the first observation initializes the total
to the raw value, an observation lower than the stored previous value is added
wholesale, and otherwise the difference to the previous value is added. -/
theorem reset_absorption_sequence :
    accumulatedAt (runCycles emptyState [⟨[("k", 100)], []⟩]) "k" = some 100 ∧
    accumulatedAt (runCycles emptyState
      [⟨[("k", 100)], []⟩, ⟨[("k", 150)], []⟩]) "k" = some 150 ∧
    accumulatedAt (runCycles emptyState
      [⟨[("k", 100)], []⟩, ⟨[("k", 150)], []⟩, ⟨[("k", 40)], []⟩]) "k"
      = some 190 ∧
    accumulatedAt (runCycles emptyState
      [⟨[("k", 100)], []⟩, ⟨[("k", 150)], []⟩, ⟨[("k", 40)], []⟩,
       ⟨[("k", 90)], []⟩]) "k" = some 240 := by
  refine ⟨?_, ?_, ?_, ?_⟩ <;>
    norm_num [accumulatedAt, runCycles, applyCycle, updateCounters, updateCounter,
      updateGauges, recordGet, recordSet, emptyState, List.find?]

theorem updateCounters_get_of_not_mem (obs : List (String × ℚ))
    (m : Record CounterState) (key : String) (h : key ∉ obs.map Prod.fst) :
    recordGet (updateCounters m obs) key = recordGet m key := by
  induction obs generalizing m with
  | nil => rfl
  | cons o rest ih =>
    simp only [List.map_cons, List.mem_cons, not_or] at h
    obtain ⟨hne, hrest⟩ := h
    show recordGet (updateCounters (updateCounter m o.1 o.2) rest) key = _
    rw [ih _ hrest, updateCounter]
    cases recordGet m o.1 <;> exact recordGet_recordSet_ne _ _ _ _ hne

theorem updateGauges_get_of_not_mem (obs : List (String × ℚ))
    (m : Record ℚ) (key : String) (h : key ∉ obs.map Prod.fst) :
    recordGet (updateGauges m obs) key = recordGet m key := by
  induction obs generalizing m with
  | nil => rfl
  | cons o rest ih =>
    simp only [List.map_cons, List.mem_cons, not_or] at h
    obtain ⟨hne, hrest⟩ := h
    show recordGet (updateGauges (recordSet m o.1 o.2) rest) key = _
    rw [ih _ hrest]
    exact recordGet_recordSet_ne _ _ _ _ hne

/-- C4: a MetricIdentity with existing counter or gauge state that does not
appear among the current cycle's observations keeps its state entry unchanged
(`prev`/`accumulated` for counters, the value for gauges), and the entry is
never deleted. -/
theorem absent_identity_frame (st : MetricState) (c : CycleResult) (key : String)
    (hc : key ∉ c.counterObs.map Prod.fst) (hg : key ∉ c.gaugeObs.map Prod.fst) :
    recordGet (applyCycle st c).counters key = recordGet st.counters key ∧
    recordGet (applyCycle st c).gauges key = recordGet st.gauges key :=
  ⟨updateCounters_get_of_not_mem c.counterObs st.counters key hc,
   updateGauges_get_of_not_mem c.gaugeObs st.gauges key hg⟩

/-- Witness for C4: applying a cycle that mentions only `"other"` leaves the
entry for `"k"` untouched. -/
theorem absent_identity_frame_witness :
    recordGet (applyCycle ⟨[("k", ⟨5, 5⟩)], [("k", 7)], 0, none⟩
        ⟨[("other", 3)], [("other", 2)]⟩).counters "k"
      = recordGet (⟨[("k", ⟨5, 5⟩)], [("k", 7)], 0, none⟩ : MetricState).counters "k" ∧
    recordGet (applyCycle ⟨[("k", ⟨5, 5⟩)], [("k", 7)], 0, none⟩
        ⟨[("other", 3)], [("other", 2)]⟩).gauges "k"
      = recordGet (⟨[("k", ⟨5, 5⟩)], [("k", 7)], 0, none⟩ : MetricState).gauges "k" :=
  absent_identity_frame ⟨[("k", ⟨5, 5⟩)], [("k", 7)], 0, none⟩
    ⟨[("other", 3)], [("other", 2)]⟩ "k" (by decide) (by decide)

theorem sortLabels_eq_of_perm (l1 l2 : Labels) (hperm : l1.Perm l2)
    (hnodup : (l1.map Prod.fst).Nodup) : sortLabels l1 = sortLabels l2 := by
  have hs1 : List.Sorted labelLE (sortLabels l1) := List.sorted_insertionSort _ _
  have hs2 : List.Sorted labelLE (sortLabels l2) := List.sorted_insertionSort _ _
  have hp : (sortLabels l1).Perm (sortLabels l2) :=
    (List.perm_insertionSort _ l1).trans (hperm.trans (List.perm_insertionSort _ l2).symm)
  have hn1 : ((sortLabels l1).map Prod.fst).Nodup :=
    (((List.perm_insertionSort labelLE l1).map Prod.fst).nodup_iff).mpr hnodup
  have hn2 : ((sortLabels l2).map Prod.fst).Nodup :=
    ((hp.map Prod.fst).nodup_iff).mp hn1
  have hstrict : ∀ s : Labels, List.Sorted labelLE s → (s.map Prod.fst).Nodup →
      List.Sorted labelLT s := by
    intro s hs hn
    have hpair : s.Pairwise (fun a b => a.1 ≠ b.1) := List.pairwise_map.mp hn
    exact (hs.and hpair).imp (fun h => ⟨h.1, h.2⟩)
  exact List.eq_of_perm_of_sorted hp (hstrict _ hs1 hn1) (hstrict _ hs2 hn2)

/-- C3: for every metric name and every pair of label maps that are equal as
maps (the same key-value pairs, keys distinct) but enumerated in different
insertion orders, `metricKey` produces the identical key string, so both
resolve to the same MetricIdentity and the same counter/gauge state entry. -/
theorem metricKey_label_order_invariant (name : String) (l1 l2 : Labels)
    (hperm : l1.Perm l2) (hnodup : (l1.map Prod.fst).Nodup) :
    metricKey name l1 = metricKey name l2 ∧
    ∀ st : MetricState,
      recordGet st.counters (metricKey name l1) = recordGet st.counters (metricKey name l2) ∧
      recordGet st.gauges (metricKey name l1) = recordGet st.gauges (metricKey name l2) := by
  have hkey : metricKey name l1 = metricKey name l2 := by
    unfold metricKey
    rw [sortLabels_eq_of_perm l1 l2 hperm hnodup]
  exact ⟨hkey, fun st => ⟨by rw [hkey], by rw [hkey]⟩⟩

/-- Witness for C3 at the spec's own example:
`{zone:"a",account:"b"}` vs `{account:"b",zone:"a"}`. -/
theorem metricKey_label_order_invariant_witness :
    metricKey "cloudflare_zone_requests_total" [("zone", "a"), ("account", "b")] =
      metricKey "cloudflare_zone_requests_total" [("account", "b"), ("zone", "a")] :=
  (metricKey_label_order_invariant "cloudflare_zone_requests_total"
    [("zone", "a"), ("account", "b")] [("account", "b"), ("zone", "a")]
    (by decide) (by decide)).1

theorem serializeMetricsLines_split (st : MetricState) (now : ℤ) :
    serializeMetricsLines st now =
      (serializeGroups st).flatMap groupLines ++ annotationLines st now := by
  simp [serializeMetricsLines, annotationLines]

theorem recordGet_eq_none_of_not_mem {α} (m : Record α) (k : String)
    (h : k ∉ m.map Prod.fst) : recordGet m k = none := by
  induction m with
  | nil => rfl
  | cons p rest ih =>
    simp only [List.map_cons, List.mem_cons, not_or] at h
    have hb : (p.1 == k) = false := beq_eq_false_iff_ne.mpr (Ne.symm h.1)
    simp [recordGet_cons, hb, ih h.2]

theorem groupInsert_get_self (gs : List (String × List SampleEntry))
    (n : String) (e : SampleEntry) :
    recordGet (groupInsert gs n e) n = some ((recordGet gs n).getD [] ++ [e]) := by
  induction gs with
  | nil => simp [groupInsert, recordGet_cons, recordGet_nil]
  | cons g rest ih =>
    by_cases h : g.1 = n
    · simp [groupInsert, h, recordGet_cons]
    · have hb : (g.1 == n) = false := beq_eq_false_iff_ne.mpr h
      simp [groupInsert, hb, recordGet_cons, ih]

theorem groupInsert_get_ne (gs : List (String × List SampleEntry))
    (n : String) (e : SampleEntry) (k : String) (h : k ≠ n) :
    recordGet (groupInsert gs n e) k = recordGet gs k := by
  induction gs with
  | nil =>
    simp [groupInsert, recordGet_cons, recordGet_nil,
      beq_eq_false_iff_ne.mpr (Ne.symm h)]
  | cons g rest ih =>
    by_cases hg : g.1 = n
    · have hbn : (g.1 == n) = true := beq_iff_eq.mpr hg
      have hbk : (g.1 == k) = false :=
        beq_eq_false_iff_ne.mpr (by rw [hg]; exact Ne.symm h)
      simp [groupInsert, hbn, recordGet_cons, hbk]
    · have hbn : (g.1 == n) = false := beq_eq_false_iff_ne.mpr hg
      simp [groupInsert, hbn, recordGet_cons, ih]

theorem mem_fst_groupInsert (gs : List (String × List SampleEntry))
    (n : String) (e : SampleEntry) (k : String) :
    k ∈ (groupInsert gs n e).map Prod.fst ↔ k ∈ gs.map Prod.fst ∨ k = n := by
  induction gs with
  | nil => simp [groupInsert]
  | cons g rest ih =>
    by_cases hg : g.1 = n
    · simp [groupInsert, hg]
      tauto
    · simp [groupInsert, beq_eq_false_iff_ne.mpr hg, ih]
      tauto

theorem groupInsert_names_nodup (gs : List (String × List SampleEntry))
    (n : String) (e : SampleEntry) (h : (gs.map Prod.fst).Nodup) :
    ((groupInsert gs n e).map Prod.fst).Nodup := by
  induction gs with
  | nil => simp [groupInsert]
  | cons g rest ih =>
    simp only [List.map_cons, List.nodup_cons] at h
    by_cases hg : g.1 = n
    · have heq : (groupInsert (g :: rest) n e).map Prod.fst =
          g.1 :: rest.map Prod.fst := by
        simp [groupInsert, hg]
      rw [heq]
      exact List.nodup_cons.mpr h
    · have heq : (groupInsert (g :: rest) n e).map Prod.fst =
          g.1 :: (groupInsert rest n e).map Prod.fst := by
        simp [groupInsert, beq_eq_false_iff_ne.mpr hg]
      rw [heq]
      refine List.nodup_cons.mpr ⟨?_, ih h.2⟩
      intro hmem
      rcases (mem_fst_groupInsert rest n e g.1).mp hmem with hm | hm
      · exact h.1 hm
      · exact hg hm

theorem groupFold_get_general (entries : List (String × SampleEntry))
    (gs₀ : List (String × List SampleEntry)) (name : String) :
    recordGet (entries.foldl (fun gs e => groupInsert gs e.1 e.2) gs₀) name =
      extendGroup (recordGet gs₀ name)
        ((entries.filter (fun e => e.1 == name)).map Prod.snd) := by
  induction entries generalizing gs₀ with
  | nil => cases h : recordGet gs₀ name <;> simp [extendGroup, h]
  | cons e rest ih =>
    obtain ⟨n', s⟩ := e
    by_cases he : n' = name
    · subst he
      rw [List.foldl_cons, ih, groupInsert_get_self]
      cases hget : recordGet gs₀ n' <;>
        simp [extendGroup, hget, List.filter_cons]
    · rw [List.foldl_cons, ih, groupInsert_get_ne _ _ _ _ (Ne.symm he)]
      have hb : ((n', s).1 == name) = false := beq_eq_false_iff_ne.mpr he
      simp [List.filter_cons, hb]

theorem groupFold_get (entries : List (String × SampleEntry)) (name : String) :
    recordGet (groupFold entries) name =
      extendGroup none ((entries.filter (fun e => e.1 == name)).map Prod.snd) :=
  groupFold_get_general entries [] name

theorem groupFold_names_nodup_general (entries : List (String × SampleEntry))
    (gs₀ : List (String × List SampleEntry)) (h : (gs₀.map Prod.fst).Nodup) :
    (((entries.foldl (fun gs e => groupInsert gs e.1 e.2) gs₀)).map Prod.fst).Nodup := by
  induction entries generalizing gs₀ with
  | nil => exact h
  | cons e rest ih => exact ih _ (groupInsert_names_nodup _ _ _ h)

theorem groupFold_names_nodup (entries : List (String × SampleEntry)) :
    ((groupFold entries).map Prod.fst).Nodup :=
  groupFold_names_nodup_general entries [] (by simp)

theorem serializeGroups_eq_groupFold (st : MetricState) :
    serializeGroups st = groupFold (doEntries st) := by
  unfold serializeGroups groupFold doEntries
  rw [List.foldl_append, List.foldl_map, List.foldl_map]

theorem count_help_groupLines (gname : String) (vals : List SampleEntry)
    (n helpText : String) :
    (groupLines (gname, vals)).count (ExpoLine.help n helpText) =
      if gname = n ∧ helpText = getHelp n ∧ vals ≠ [] then 1 else 0 := by
  cases vals with
  | nil => simp [groupLines]
  | cons e tail =>
    have hmap : ∀ l : List SampleEntry,
        (l.map (fun s => ExpoLine.sample gname s.labels s.value)).count
          (ExpoLine.help n helpText) = 0 :=
      fun l => List.count_eq_zero.mpr (by simp)
    by_cases hg : gname = n
    · subst hg
      by_cases hh : helpText = getHelp gname
      · subst hh
        simp [groupLines, List.count_cons, hmap]
      · simp [groupLines, List.count_cons, hmap, hh, Ne.symm hh]
    · simp [groupLines, List.count_cons, hmap, hg, Ne.symm hg]

theorem count_typ_groupLines (gname : String) (vals : List SampleEntry)
    (n : String) (t : MetricType) :
    (groupLines (gname, vals)).count (ExpoLine.typ n t) =
      (match vals with
       | [] => 0
       | e :: _ => if gname = n ∧ t = e.type then 1 else 0) := by
  cases vals with
  | nil => simp [groupLines]
  | cons e tail =>
    have hmap : ∀ l : List SampleEntry,
        (l.map (fun s => ExpoLine.sample gname s.labels s.value)).count
          (ExpoLine.typ n t) = 0 :=
      fun l => List.count_eq_zero.mpr (by simp)
    by_cases hg : gname = n
    · subst hg
      by_cases ht : t = e.type
      · subst ht
        simp [groupLines, List.count_cons, hmap]
      · simp [groupLines, List.count_cons, hmap, ht, Ne.symm ht]
    · simp [groupLines, List.count_cons, hmap, hg, Ne.symm hg]

theorem filter_sample_map (gname n : String) (l : List SampleEntry) :
    (l.map (fun s => ExpoLine.sample gname s.labels s.value)).filter
        (isSampleFor n) =
      if gname = n then l.map (fun s => ExpoLine.sample n s.labels s.value)
      else [] := by
  induction l with
  | nil => simp
  | cons s tail ih =>
    by_cases hg : gname = n
    · subst hg
      simp [List.filter_cons, isSampleFor, ih]
    · simp [List.filter_cons, isSampleFor, beq_eq_false_iff_ne.mpr hg, ih, hg]

theorem filter_sample_groupLines (gname : String) (vals : List SampleEntry)
    (n : String) :
    (groupLines (gname, vals)).filter (isSampleFor n) =
      if gname = n then
        vals.map (fun s => ExpoLine.sample n s.labels s.value)
      else [] := by
  cases vals with
  | nil => simp [groupLines]
  | cons e tail =>
    rw [groupLines]
    rw [List.filter_cons, List.filter_cons]
    simp only [isSampleFor, cond_false, if_false, Bool.false_eq_true]
    exact filter_sample_map gname n (e :: tail)

theorem count_help_flatMap (gs : List (String × List SampleEntry))
    (hnd : (gs.map Prod.fst).Nodup) (n helpText : String) :
    (gs.flatMap groupLines).count (ExpoLine.help n helpText) =
      (match recordGet gs n with
       | some vals => if helpText = getHelp n ∧ vals ≠ [] then 1 else 0
       | none => 0) := by
  induction gs with
  | nil => simp [recordGet_nil]
  | cons g rest ih =>
    obtain ⟨gname, vals⟩ := g
    simp only [List.map_cons, List.nodup_cons] at hnd
    rw [List.flatMap_cons, List.count_append, count_help_groupLines]
    by_cases hg : gname = n
    · subst hg
      have hrest : recordGet rest gname = none :=
        recordGet_eq_none_of_not_mem rest gname hnd.1
      rw [ih hnd.2, hrest]
      have hget : recordGet ((gname, vals) :: rest) gname = some vals := by
        simp [recordGet_cons]
      rw [hget]
      by_cases hh : helpText = getHelp gname <;> by_cases hv : vals = [] <;>
        simp [hh, hv]
    · have hget : recordGet ((gname, vals) :: rest) n = recordGet rest n := by
        simp [recordGet_cons, beq_eq_false_iff_ne.mpr hg]
      rw [ih hnd.2, hget]
      simp [hg]

theorem count_typ_flatMap (gs : List (String × List SampleEntry))
    (hnd : (gs.map Prod.fst).Nodup) (n : String) (t : MetricType) :
    (gs.flatMap groupLines).count (ExpoLine.typ n t) =
      (match recordGet gs n with
       | some (e :: _) => if t = e.type then 1 else 0
       | _ => 0) := by
  induction gs with
  | nil => simp [recordGet_nil]
  | cons g rest ih =>
    obtain ⟨gname, vals⟩ := g
    simp only [List.map_cons, List.nodup_cons] at hnd
    rw [List.flatMap_cons, List.count_append, count_typ_groupLines]
    by_cases hg : gname = n
    · subst hg
      have hrest : recordGet rest gname = none :=
        recordGet_eq_none_of_not_mem rest gname hnd.1
      rw [ih hnd.2, hrest]
      have hget : recordGet ((gname, vals) :: rest) gname = some vals := by
        simp [recordGet_cons]
      rw [hget]
      cases vals with
      | nil => simp
      | cons e tail => by_cases ht : t = e.type <;> simp [ht]
    · have hget : recordGet ((gname, vals) :: rest) n = recordGet rest n := by
        simp [recordGet_cons, beq_eq_false_iff_ne.mpr hg]
      rw [ih hnd.2, hget]
      cases vals with
      | nil => simp
      | cons e tail => simp [hg]

theorem filter_sample_flatMap (gs : List (String × List SampleEntry))
    (hnd : (gs.map Prod.fst).Nodup) (n : String) :
    (gs.flatMap groupLines).filter (isSampleFor n) =
      ((recordGet gs n).getD []).map
        (fun s => ExpoLine.sample n s.labels s.value) := by
  induction gs with
  | nil => simp [recordGet_nil]
  | cons g rest ih =>
    obtain ⟨gname, vals⟩ := g
    simp only [List.map_cons, List.nodup_cons] at hnd
    rw [List.flatMap_cons, List.filter_append, filter_sample_groupLines]
    by_cases hg : gname = n
    · subst hg
      have hrest : recordGet rest gname = none :=
        recordGet_eq_none_of_not_mem rest gname hnd.1
      rw [ih hnd.2, hrest]
      have hget : recordGet ((gname, vals) :: rest) gname = some vals := by
        simp [recordGet_cons]
      rw [hget]
      simp
    · have hget : recordGet ((gname, vals) :: rest) n = recordGet rest n := by
        simp [recordGet_cons, beq_eq_false_iff_ne.mpr hg]
      rw [ih hnd.2, hget]
      simp [hg]

theorem staleness_not_mem_flatMap (gs : List (String × List SampleEntry))
    (s : ℤ) : ExpoLine.staleness s ∉ gs.flatMap groupLines := by
  intro h
  rw [List.mem_flatMap] at h
  obtain ⟨g, _, hl⟩ := h
  obtain ⟨gname, vals⟩ := g
  cases vals <;> simp [groupLines] at hl

theorem lastErr_not_mem_flatMap (gs : List (String × List SampleEntry))
    (e : String) : ExpoLine.lastErr e ∉ gs.flatMap groupLines := by
  intro h
  rw [List.mem_flatMap] at h
  obtain ⟨g, _, hl⟩ := h
  obtain ⟨gname, vals⟩ := g
  cases vals <;> simp [groupLines] at hl

theorem help_mem_flatMap (gs : List (String × List SampleEntry))
    (n helpText : String) (h : ExpoLine.help n helpText ∈ gs.flatMap groupLines) :
    helpText = getHelp n := by
  rw [List.mem_flatMap] at h
  obtain ⟨g, _, hl⟩ := h
  obtain ⟨gname, vals⟩ := g
  cases vals with
  | nil => simp [groupLines] at hl
  | cons e tail =>
    simp only [groupLines, List.mem_cons] at hl
    rcases hl with hl | hl | hl
    · rw [ExpoLine.help.injEq] at hl
      rw [hl.1]
      exact hl.2
    · simp at hl
    · simp at hl

theorem filter_eq_nil_iff_not_mem_fst (entries : List (String × SampleEntry))
    (name : String) :
    entries.filter (fun e => e.1 == name) = [] ↔
      name ∉ entries.map Prod.fst := by
  rw [List.filter_eq_nil_iff]
  constructor
  · intro h hmem
    rw [List.mem_map] at hmem
    obtain ⟨e, he, heq⟩ := hmem
    exact (h e he) (beq_iff_eq.mpr heq)
  · intro h e he hbeq
    exact h (List.mem_map.mpr ⟨e, he, beq_iff_eq.mp hbeq⟩)

theorem find?_eq_head?_filter (entries : List (String × SampleEntry))
    (p : String × SampleEntry → Bool) :
    entries.find? p = (entries.filter p).head? := by
  induction entries with
  | nil => rfl
  | cons e rest ih =>
    by_cases hp : p e
    · rw [List.find?_cons_of_pos _ hp, List.filter_cons_of_pos hp]
      rfl
    · rw [List.find?_cons_of_neg _ hp, List.filter_cons_of_neg hp, ih]

/-- C9: every serialization appends a staleness annotation equal to the whole
seconds elapsed (rounded) since `lastFetch` when at least one cycle has
succeeded, the sentinel `-1` when none ever has (`lastFetch` is 0), and the
last error message if and only if `lastError` holds a non-empty message. -/
theorem staleness_error_trailer (st : MetricState) (now : ℤ) :
    ((0 < st.lastFetch →
        (serializeMetricsLines st now).count
          (ExpoLine.staleness (jsRound (((now - st.lastFetch : ℤ) : ℚ) / 1000))) = 1) ∧
     (st.lastFetch = 0 →
        (serializeMetricsLines st now).count (ExpoLine.staleness (-1)) = 1) ∧
     (∀ s : ℤ, ExpoLine.staleness s ∈ serializeMetricsLines st now →
        s = if 0 < st.lastFetch then jsRound (((now - st.lastFetch : ℤ) : ℚ) / 1000)
            else -1) ∧
     (∀ e : String, ExpoLine.lastErr e ∈ serializeMetricsLines st now ↔
        (st.lastError = some e ∧ e ≠ ""))) := by
  have hstale0 : ∀ s : ℤ,
      ((serializeGroups st).flatMap groupLines).count (ExpoLine.staleness s) = 0 :=
    fun s => List.count_eq_zero.mpr (staleness_not_mem_flatMap _ s)
  refine ⟨?_, ?_, ?_, ?_⟩
  · intro hpos
    rw [serializeMetricsLines_split, List.count_append, hstale0]
    unfold annotationLines
    rw [if_pos hpos]
    cases st.lastError with
    | none => simp
    | some e => by_cases he : e = "" <;> simp [he]
  · intro h0
    rw [serializeMetricsLines_split, List.count_append, hstale0]
    unfold annotationLines
    rw [h0]
    cases st.lastError with
    | none => simp
    | some e => by_cases he : e = "" <;> simp [he]
  · intro s hs
    rw [serializeMetricsLines_split, List.mem_append] at hs
    rcases hs with hs | hs
    · exact absurd hs (staleness_not_mem_flatMap _ s)
    · unfold annotationLines at hs
      rw [List.mem_append] at hs
      rcases hs with hs | hs
      · simpa using hs
      · cases herr : st.lastError with
        | none => rw [herr] at hs; simp at hs
        | some e => rw [herr] at hs; by_cases he : e = "" <;> simp [he] at hs
  · intro e
    constructor
    · intro hm
      rw [serializeMetricsLines_split, List.mem_append] at hm
      rcases hm with hm | hm
      · exact absurd hm (lastErr_not_mem_flatMap _ e)
      · unfold annotationLines at hm
        rw [List.mem_append] at hm
        rcases hm with hm | hm
        · simp at hm
        · cases herr : st.lastError with
          | none => rw [herr] at hm; simp at hm
          | some e' =>
            rw [herr] at hm
            by_cases he : e' = ""
            · simp [he] at hm
            · simp [he] at hm
              subst hm
              exact ⟨rfl, he⟩
    · rintro ⟨herr, hne⟩
      rw [serializeMetricsLines_split, List.mem_append]
      right
      unfold annotationLines
      rw [List.mem_append]
      right
      rw [herr]
      simp [hne]

/-- Witness for C9 at a concrete state: with `lastError = "boom"` set, the
error annotation is present. -/
theorem staleness_error_trailer_witness :
    ExpoLine.lastErr "boom" ∈ serializeMetricsLines ⟨[], [], 5000, some "boom"⟩ 6500 :=
  ((staleness_error_trailer ⟨[], [], 5000, some "boom"⟩ 6500).2.2.2 "boom").mpr
    ⟨rfl, by decide⟩

/-- C6 (amended): the Durable Object serializer groups samples by metric name;
for each recorded name it emits exactly one `HELP` line (with the registered
help text), exactly one `TYPE` line whose type is that of the first sample
recorded under the name (counter samples precede gauge samples), and one
sample line per MetricIdentity, whose label segment is the canonical key's
label segment verbatim — `\x7bk=v,...\x7d` with sorted keys and label values
neither quoted nor escaped (quoting and escaping exist only in the registry
serializer's `formatLabels`). -/
theorem do_serializer_grouping (st : MetricState) (now : ℤ) (name : String) :
    ((serializeMetricsLines st now).count (ExpoLine.help name (getHelp name)) =
        if name ∈ (doEntries st).map Prod.fst then 1 else 0) ∧
    (∀ h, ExpoLine.help name h ∈ serializeMetricsLines st now → h = getHelp name) ∧
    (∀ t, (serializeMetricsLines st now).count (ExpoLine.typ name t) =
        if firstTypeFor st name = some t then 1 else 0) ∧
    ((serializeMetricsLines st now).filter (isSampleFor name) =
        ((doEntries st).filter (fun e => e.1 == name)).map
          (fun e => ExpoLine.sample name e.2.labels e.2.value)) := by
  have hnd : ((serializeGroups st).map Prod.fst).Nodup := by
    rw [serializeGroups_eq_groupFold]; exact groupFold_names_nodup _
  have hget : recordGet (serializeGroups st) name =
      extendGroup none
        (((doEntries st).filter (fun e => e.1 == name)).map Prod.snd) := by
    rw [serializeGroups_eq_groupFold]; exact groupFold_get _ _
  have htrail_help : ∀ h, (annotationLines st now).count (ExpoLine.help name h) = 0 := by
    intro h
    refine List.count_eq_zero.mpr ?_
    intro hmem
    unfold annotationLines at hmem
    rw [List.mem_append] at hmem
    rcases hmem with hm | hm
    · simp at hm
    · cases herr : st.lastError with
      | none => rw [herr] at hm; simp at hm
      | some e => rw [herr] at hm; by_cases he : e = "" <;> simp [he] at hm
  have htrail_typ : ∀ t, (annotationLines st now).count (ExpoLine.typ name t) = 0 := by
    intro t
    refine List.count_eq_zero.mpr ?_
    intro hmem
    unfold annotationLines at hmem
    rw [List.mem_append] at hmem
    rcases hmem with hm | hm
    · simp at hm
    · cases herr : st.lastError with
      | none => rw [herr] at hm; simp at hm
      | some e => rw [herr] at hm; by_cases he : e = "" <;> simp [he] at hm
  have htrail_sample : (annotationLines st now).filter (isSampleFor name) = [] := by
    rw [List.filter_eq_nil_iff]
    intro l hl
    unfold annotationLines at hl
    rw [List.mem_append] at hl
    rcases hl with hl | hl
    · simp at hl
      subst hl
      simp [isSampleFor]
    · cases herr : st.lastError with
      | none => rw [herr] at hl; simp at hl
      | some e =>
        rw [herr] at hl
        by_cases he : e = ""
        · simp [he] at hl
        · simp [he] at hl
          subst hl
          simp [isSampleFor]
  refine ⟨?_, ?_, ?_, ?_⟩
  · rw [serializeMetricsLines_split, List.count_append, htrail_help,
      count_help_flatMap _ hnd, hget]
    by_cases hf : (doEntries st).filter (fun e => e.1 == name) = []
    · rw [hf]
      simp [extendGroup, (filter_eq_nil_iff_not_mem_fst _ _).mp hf]
    · have hne : ((doEntries st).filter (fun e => e.1 == name)).map Prod.snd ≠ [] :=
        fun hc => hf (List.map_eq_nil_iff.mp hc)
      have hmem : name ∈ (doEntries st).map Prod.fst := by
        by_contra hn
        exact hf ((filter_eq_nil_iff_not_mem_fst _ _).mpr hn)
      simp [extendGroup, hne, hmem]
  · intro h hm
    rw [serializeMetricsLines_split, List.mem_append] at hm
    rcases hm with hm | hm
    · exact help_mem_flatMap _ _ _ hm
    · exact absurd hm (List.count_eq_zero.mp (htrail_help h))
  · intro t
    rw [serializeMetricsLines_split, List.count_append, htrail_typ,
      count_typ_flatMap _ hnd, hget]
    cases hfe : (doEntries st).filter (fun e => e.1 == name) with
    | nil =>
      have : firstTypeFor st name = none := by
        unfold firstTypeFor
        rw [find?_eq_head?_filter, hfe]
        rfl
      simp [extendGroup, this]
    | cons f fs =>
      have hft : firstTypeFor st name = some f.2.type := by
        unfold firstTypeFor
        rw [find?_eq_head?_filter, hfe]
        rfl
      rw [hft]
      by_cases ht : t = f.2.type
      · subst ht
        simp [extendGroup]
      · simp [extendGroup, ht, Ne.symm ht]
  · rw [serializeMetricsLines_split, List.filter_append, htrail_sample,
      filter_sample_flatMap _ hnd, hget]
    by_cases hf : (doEntries st).filter (fun e => e.1 == name) = []
    · rw [hf]
      simp [extendGroup]
    · have hne : ((doEntries st).filter (fun e => e.1 == name)).map Prod.snd ≠ [] :=
        fun hc => hf (List.map_eq_nil_iff.mp hc)
      simp [extendGroup, hne, List.map_map, Function.comp]

/-- C6 counterexample: the Durable Object serializer emits the canonical key's
label segment verbatim — `\x7bzone=a\x7d`, values not quoted — so the claimed
`\x7bzone="a"\x7d` sample line is absent while the unquoted one is present. -/
theorem do_serializer_labels_unescaped :
    ExpoLine.sample "cloudflare_zone_requests_total" "\x7bzone=a\x7d" 5 ∈
      serializeMetricsLines recordedExampleState 0 ∧
    ExpoLine.sample "cloudflare_zone_requests_total" "\x7bzone=\"a\"\x7d" 5 ∉
      serializeMetricsLines recordedExampleState 0 := by
  constructor <;> decide

/-- C5 counterexample: the Durable Object serializer consults no denylist — a
metric name in the configured denylist that was observed and recorded into
Durable Object state still gets its `HELP` (and `TYPE` and sample) lines. -/
theorem do_serializer_ignores_denylist :
    "cloudflare_zone_requests_total" ∈ ["cloudflare_zone_requests_total"] ∧
    ExpoLine.help "cloudflare_zone_requests_total"
        (getHelp "cloudflare_zone_requests_total") ∈
      serializeMetricsLines recordedExampleState 0 := by
  constructor <;> decide

theorem pushValue_name_preserved (metrics : List MetricDefn)
    (name helpText : String) (t : MetricType) (labels : Labels) (value : ℚ)
    (denied : String) (hall : ∀ m ∈ metrics, m.name ≠ denied)
    (hname : name ≠ denied) :
    ∀ m ∈ pushValue metrics name helpText t labels value, m.name ≠ denied := by
  induction metrics with
  | nil =>
    intro m hm
    simp [pushValue] at hm
    rw [hm]
    exact hname
  | cons m0 rest ih =>
    intro m hm
    by_cases h0 : m0.name = name
    · rw [pushValue, if_pos (beq_iff_eq.mpr h0)] at hm
      rcases List.mem_cons.mp hm with hm | hm
      · rw [hm]
        exact hall m0 (List.mem_cons_self m0 rest)
      · exact hall m (List.mem_cons_of_mem m0 hm)
    · rw [pushValue, if_neg (by simpa using h0)] at hm
      rcases List.mem_cons.mp hm with hm | hm
      · rw [hm]
        exact hall m0 (List.mem_cons_self m0 rest)
      · exact ih (fun m' hm' => hall m' (List.mem_cons_of_mem m0 hm')) m hm

theorem registryApply_name_not_denied (denylist : List String)
    (ops : List RegistryOp) (denied : String) (hd : denied ∈ denylist) :
    ∀ m ∈ registryApply denylist ops, m.name ≠ denied := by
  suffices h : ∀ metrics, (∀ m ∈ metrics, m.name ≠ denied) →
      ∀ m ∈ ops.foldl (registryRecord denylist) metrics, m.name ≠ denied by
    exact h [] (by simp)
  induction ops with
  | nil => intro metrics hall; exact hall
  | cons op rest ih =>
    intro metrics hall
    rw [List.foldl_cons]
    refine ih _ ?_
    cases op with
    | counter name helpText labels value =>
      by_cases hden : denylist.contains name
      · rw [registryRecord, if_pos hden]
        exact hall
      · rw [registryRecord, if_neg hden]
        refine pushValue_name_preserved _ _ _ _ _ _ _ hall ?_
        intro hn
        rw [hn] at hden
        exact hden (by simpa using hd)
    | gauge name helpText labels value =>
      by_cases hden : denylist.contains name
      · rw [registryRecord, if_pos hden]
        exact hall
      · rw [registryRecord, if_neg hden]
        refine pushValue_name_preserved _ _ _ _ _ _ _ hall ?_
        intro hn
        rw [hn] at hden
        exact hden (by simpa using hd)

/-- C5 (amended): in the registry path the denylist is checked before a value
is ever recorded, so a denylisted metric name never appears in any `HELP`,
`TYPE` or sample line of the serialized registry output, whatever was
observed; the Durable Object serializer applies no denylist filtering. -/
theorem registry_denylist_filters_output (denylist : List String)
    (ops : List RegistryOp) (denied : String) (hd : denied ∈ denylist) :
    ∀ l ∈ registrySerializeLines (registryApply denylist ops),
      lineName l ≠ some denied := by
  intro l hl
  rw [registrySerializeLines, List.mem_flatMap] at hl
  obtain ⟨m, hm, hlm⟩ := hl
  have hname : m.name ≠ denied :=
    registryApply_name_not_denied denylist ops denied hd m hm
  rcases List.mem_cons.mp hlm with h | h
  · rw [h]
    simpa [lineName] using hname
  · rcases List.mem_cons.mp h with h | h
    · rw [h]
      simpa [lineName] using hname
    · rw [List.mem_map] at h
      obtain ⟨v, _, hv⟩ := h
      rw [← hv]
      simpa [lineName] using hname

/-- Witness for C5's amended theorem: with the denylist containing
`cloudflare_zone_requests_total`, a registry that also recorded
`cloudflare_exporter_up` serializes lines only for the latter. -/
theorem registry_denylist_filters_output_witness :
    lineName (ExpoLine.help "cloudflare_exporter_up" "Cloudflare exporter is up") ≠
      some "cloudflare_zone_requests_total" :=
  registry_denylist_filters_output ["cloudflare_zone_requests_total"]
    [RegistryOp.counter "cloudflare_zone_requests_total"
        "Number of requests for zone" [("zone", "a")] 5,
     RegistryOp.gauge "cloudflare_exporter_up" "Cloudflare exporter is up" [] 1]
    "cloudflare_zone_requests_total" (by decide)
    (ExpoLine.help "cloudflare_exporter_up" "Cloudflare exporter is up")
    (by decide)

theorem retryLoop_spec {α} (attempts : ℕ → Except CFError α) :
    ∀ fuel i, retryLoop attempts i fuel =
      (i + countRetryable attempts i fuel + 1,
        attempts (i + countRetryable attempts i fuel)) := by
  intro fuel
  induction fuel with
  | zero =>
    intro i
    cases h : attempts i <;> simp [retryLoop, countRetryable, h]
  | succ fuel ih =>
    intro i
    cases h : attempts i with
    | ok v => simp [retryLoop, countRetryable, h]
    | error e =>
      by_cases hr : isRetryable e
      · rw [retryLoop]
        rw [h]
        simp only [hr, if_true]
        rw [ih (i + 1)]
        rw [countRetryable, h]
        simp only [hr, if_true]
        have harith : i + 1 + countRetryable attempts (i + 1) fuel =
            i + (countRetryable attempts (i + 1) fuel + 1) := by omega
        rw [harith]
      · rw [retryLoop]
        rw [h]
        simp only [hr, if_false]
        rw [countRetryable, h]
        simp [hr, h]

theorem countRetryable_le {α} (attempts : ℕ → Except CFError α) :
    ∀ fuel i, countRetryable attempts i fuel ≤ fuel := by
  intro fuel
  induction fuel with
  | zero => intro i; rw [countRetryable]
  | succ fuel ih =>
    intro i
    cases h : attempts i with
    | ok v => simp [countRetryable, h]
    | error e =>
      by_cases hr : isRetryable e
      · rw [countRetryable, h]
        simp only [hr, if_true]
        exact Nat.succ_le_succ (ih (i + 1))
      · rw [countRetryable, h]
        simp [hr]

/-- C7: a failure of an upstream call wrapped by the retry policy is
classified retryable exactly when its cause is a network/connection error,
HTTP 429, or HTTP status ≥ 500; the call is retried exactly while failures
are retryable, up to the fixed maximum of 3 retries (attempt count = 1 +
leading retryable failures, capped at 4), the final result being that of the
last attempt; a structured GraphQL query-level error surfaces to the caller
after exactly one attempt; the nominal backoff delay doubles each retry. -/
theorem retry_policy_spec :
    (∀ (o : FetchOutcome Unit) (e : CFError), graphqlAttempt o = .error e →
       (isRetryable e = true ↔ retryableOutcome o)) ∧
    (∀ (outcomes : ℕ → FetchOutcome Unit) (msgs : List String),
       graphqlAttempt (outcomes 0) = .error (.gql msgs) →
       runWithRetry (fun i => graphqlAttempt (outcomes i)) =
         (1, .error (.gql msgs))) ∧
    (∀ outcomes : ℕ → FetchOutcome Unit,
       runWithRetry (fun i => graphqlAttempt (outcomes i)) =
         (countRetryable (fun i => graphqlAttempt (outcomes i)) 0 maxRetries + 1,
          graphqlAttempt (outcomes
            (countRetryable (fun i => graphqlAttempt (outcomes i)) 0 maxRetries)))) ∧
    (∀ outcomes : ℕ → FetchOutcome Unit,
       (runWithRetry (fun i => graphqlAttempt (outcomes i))).1 ≤ maxRetries + 1) ∧
    (∀ n, retryDelayMs (n + 1) = 2 * retryDelayMs n) := by
  refine ⟨?_, ?_, ?_, ?_, ?_⟩
  · intro o e he
    cases o with
    | networkFailure msg =>
      simp [graphqlAttempt] at he
      rw [← he]
      simp [isRetryable, retryableOutcome]
    | response s txt errs d =>
      by_cases h429 : s = 429
      · subst h429
        simp [graphqlAttempt] at he
        rw [← he]
        simp [isRetryable, retryableOutcome]
      · have hb : (s == 429) = false := by simpa using h429
        by_cases hok : 200 ≤ s ∧ s < 300
        · have hb2 : (decide (200 ≤ s) && decide (s < 300)) = true := by
            simp [hok.1, hok.2]
          by_cases herrs : errs = []
          · simp [graphqlAttempt, hb, hb2, herrs] at he
          · simp [graphqlAttempt, hb, hb2, herrs] at he
            rw [← he]
            simp only [isRetryable, retryableOutcome]
            constructor
            · intro hfalse
              cases hfalse
            · intro habs
              omega
        · have hb2 : (decide (200 ≤ s) && decide (s < 300)) = false := by
            rcases Decidable.not_and_iff_or_not.mp hok with hno | hno <;>
              simp [hno]
          simp [graphqlAttempt, hb, hb2] at he
          rw [← he]
          simp only [isRetryable, retryableOutcome, hb]
          by_cases h5 : 500 ≤ s <;> simp [h5, h429]
  · intro outcomes msgs he
    simp [runWithRetry, maxRetries, retryLoop, he, isRetryable]
  · intro outcomes
    rw [runWithRetry, retryLoop_spec]
    simp
  · intro outcomes
    rw [runWithRetry, retryLoop_spec]
    simp
    have := countRetryable_le (fun i => graphqlAttempt (outcomes i)) maxRetries 0
    simp [maxRetries] at this ⊢
    omega
  · intro n
    simp [retryDelayMs, pow_succ]
    ring

/-- C8 counterexample: with free-tier mode disabled, a free-plan zone that
passes the include/exclude filters is dropped from the *non-premium* HTTP
category's zone set as well — the free-tier downgrade does not act only on
premium-only categories. -/
theorem free_tier_filter_counterexample :
    filterZones ⟨[], [], false⟩
        [⟨"z1", "example.com", FREE_TIER_PLAN_ID, "acme"⟩] =
      [⟨"z1", "example.com", FREE_TIER_PLAN_ID, "acme"⟩] ∧
    zoneIDsForCategory ⟨[], [], false⟩
        [⟨"z1", "example.com", FREE_TIER_PLAN_ID, "acme"⟩] false = [] := by
  constructor <;> decide

/-- C8 (amended): the set of zone IDs processed in a refresh cycle equals
exactly the zones passing include-list, exclude-list, and free-tier filters in
that order (equivalently the single conjunctive predicate); the free-tier
downgrade (free-tier mode off) removes free-plan zones from all per-zone
categories, and with free-tier mode on the premium-only categories are
skipped entirely. -/
theorem filterZones_characterization (cfg : ZoneFilterConfig) (zs : List Zone) :
    filterZones cfg zs = zs.filter (fun z =>
      (cfg.zones.isEmpty || cfg.zones.contains z.id) &&
      !cfg.excludeZones.contains z.id) := by
  unfold filterZones
  by_cases hz : 0 < cfg.zones.length
  · have hzn : cfg.zones.isEmpty = false := by
      rcases hc : cfg.zones with _ | _
      · rw [hc] at hz
        simp at hz
      · rfl
    by_cases he : 0 < cfg.excludeZones.length
    · rw [if_pos hz, if_pos he, List.filter_filter]
      refine List.filter_congr (fun z _ => ?_)
      simp [hzn, Bool.and_comm]
    · have hen : cfg.excludeZones = [] := by
        rcases hc : cfg.excludeZones with _ | _
        · rfl
        · rw [hc] at he
          simp at he
      rw [if_pos hz, if_neg he]
      refine List.filter_congr (fun z _ => ?_)
      simp [hzn, hen]
  · have hzn : cfg.zones = [] := by
      rcases hc : cfg.zones with _ | _
      · rfl
      · rw [hc] at hz
        simp at hz
    by_cases he : 0 < cfg.excludeZones.length
    · rw [if_neg hz, if_pos he]
      refine List.filter_congr (fun z _ => ?_)
      simp [hzn]
    · have hen : cfg.excludeZones = [] := by
        rcases hc : cfg.excludeZones with _ | _
        · rfl
        · rw [hc] at he
          simp at he
      rw [if_neg hz, if_neg he]
      conv_lhs => rw [← List.filter_true (l := zs)]
      refine List.filter_congr (fun z _ => ?_)
      simp [hzn, hen]

/-- C8 (amended): the set of zone IDs processed in a refresh cycle equals
exactly the zones passing include-list, exclude-list, and free-tier filters in
that order (equivalently the single conjunctive predicate); the free-tier
downgrade (free-tier mode off) removes free-plan zones from all per-zone
categories, and with free-tier mode on the premium-only categories are
skipped entirely. -/
theorem processed_zones_characterization (cfg : ZoneFilterConfig)
    (zs : List Zone) :
    processedZoneIDs cfg zs = (zs.filter (claimZonePredicate cfg)).map Zone.id ∧
    zoneIDsForCategory cfg zs false = processedZoneIDs cfg zs ∧
    (cfg.freeTier = true → zoneIDsForCategory cfg zs true = []) := by
  refine ⟨?_, ?_, ?_⟩
  · unfold processedZoneIDs nonFreeZones
    cases hft : cfg.freeTier
    · rw [if_neg Bool.false_ne_true, filterZones_characterization,
        List.filter_filter]
      refine congrArg (List.map Zone.id) (List.filter_congr (fun z _ => ?_))
      simp [claimZonePredicate, hft, Bool.and_assoc, Bool.and_comm,
        Bool.and_left_comm]
    · rw [if_pos rfl, filterZones_characterization]
      refine congrArg (List.map Zone.id) (List.filter_congr (fun z _ => ?_))
      simp [claimZonePredicate, hft, Bool.and_assoc]
  · simp [zoneIDsForCategory]
  · intro hft
    simp [zoneIDsForCategory, hft]

/-- C10: within one refresh cycle, only the first element of a zone's
`httpRequests1mGroups` contributes observations — the zone's contribution for
`g :: rest` equals its contribution for `[g]`, so any second or later group
is ignored entirely — and a zone with an empty group list contributes
nothing. -/
theorem http_first_group_only (cfg : HTTPConfig) (nonFree : List Zone)
    (firewallRules : Record String) (tag : String) (g : HTTPGroup)
    (rest : List HTTPGroup) (fws : List FirewallEventGroup) :
    processHTTPZone cfg nonFree firewallRules ⟨tag, g :: rest, fws⟩ =
      processHTTPZone cfg nonFree firewallRules ⟨tag, [g], fws⟩ ∧
    processHTTPZone cfg nonFree firewallRules ⟨tag, [], fws⟩ = [] := by
  constructor <;>
    · unfold processHTTPZone
      cases findZoneInfo nonFree tag <;> rfl

end CFExporter

